import Mathlib

/-!
Verification of the metallb legacy-conversion layer
(`internal/conversion/internal.go`) and of the pool reconciliation
controller (`internal/k8s/controllers/pool_controller.go`).

Go values are shallowly embedded: slices become `List`, `nil`-able maps
become `Option` of an association list with unique keys, `*bool` becomes
`Option Bool`, `time.Duration` (int64 nanoseconds) becomes `Int` with the
overflow bounds of the Go parser made explicit, and fallible functions
return `Except`/`Option`.
-/

set_option maxRecDepth 2048

deriving instance DecidableEq for Except

namespace Metallb

/-- Namespace constant used by the conversion layer for every emitted
resource (declared outside the translated file; its concrete value is
irrelevant to every property proved here). -/
def resourcesNameSpace : String := "metallb-system"

/-! ## Canonical (output) resource shapes -/

/-- Output shape of `v1beta1.CommunityAlias` (fields used by the source). -/
structure CommunityAlias where
  Name : String
  Value : String
deriving DecidableEq

/-- Output shape of `v1beta1.Community` (fields used by the source). -/
structure Community where
  Name : String
  Namespace : String
  Communities : List CommunityAlias
deriving DecidableEq

/-- Output shape of `v1beta1.BGPAdvertisement` (fields used by the source). -/
structure BGPAdvertisement where
  Name : String
  Namespace : String
  Communities : List String
  AggregationLength : Nat
  AggregationLengthV6 : Nat
  LocalPref : Nat
  IPAddressPools : List String
deriving DecidableEq

/-- Output shape of `v1beta1.L2Advertisement` (fields used by the source). -/
structure L2Advertisement where
  Name : String
  Namespace : String
  IPAddressPools : List String
deriving DecidableEq

/-- Output shape of `v1beta1.IPAddressPool` (fields used by the source). -/
structure IPAddressPool where
  Name : String
  Namespace : String
  Addresses : List String
  AvoidBuggyIPs : Bool
  AutoAssign : Option Bool
deriving DecidableEq

/-- Element of `ClusterResources.Peers`; the claims treat peers as opaque
sequence elements, so only an identity field is modelled. -/
structure BGPPeer where
  Name : String
deriving DecidableEq

/-- Element of `ClusterResources.BFDProfiles`; opaque for the claims. -/
structure BFDProfileRes where
  Name : String
deriving DecidableEq

/-- Element of `ClusterResources.LegacyAddressPools`; opaque for the claims. -/
structure LegacyAddressPool where
  Name : String
deriving DecidableEq

/-- Element of `ClusterResources.Nodes`; opaque for the claims. -/
structure NodeV where
  Name : String
deriving DecidableEq

/-- Element of `ClusterResources.Namespaces`; opaque for the claims. -/
structure NamespaceV where
  Name : String
deriving DecidableEq

/-- `config.ClusterResources`. The Go `map[string]corev1.Secret`
`PasswordSecrets` is a `nil`-able map: `none` is the unallocated (`nil`)
map, `some m` an allocated map represented as an association list with
unique keys; secret payloads are opaque strings. Field defaults give the
Go zero value `config.ClusterResources{}`. -/
structure ClusterResources where
  Pools : List IPAddressPool := []
  Peers : List BGPPeer := []
  BFDProfiles : List BFDProfileRes := []
  BGPAdvs : List BGPAdvertisement := []
  L2Advs : List L2Advertisement := []
  LegacyAddressPools : List LegacyAddressPool := []
  Communities : List Community := []
  PasswordSecrets : Option (List (String × String)) := none
  Nodes : List NodeV := []
  Namespaces : List NamespaceV := []
deriving DecidableEq

/-! ## Go map primitives (association lists with unique keys) -/

/-- Go map read `m[k]` (comma-ok form): first binding of `k`. -/
def lookupKV : List (String × String) → String → Option String
  | [], _ => none
  | (k0, v0) :: rest, k => if k0 = k then some v0 else lookupKV rest k

/-- Go map write `m[k] = v`: overwrite the binding of `k` if present,
otherwise add it. -/
def mapInsert : List (String × String) → String → String → List (String × String)
  | [], k, v => [(k, v)]
  | (k0, v0) :: rest, k, v =>
      if k0 = k then (k, v) :: rest else (k0, v0) :: mapInsert rest k v

/-- The loop `for key, value := range second { first[key] = value }`. -/
def mapInsertAll (first second : List (String × String)) : List (String × String) :=
  second.foldl (fun acc kv => mapInsert acc kv.1 kv.2) first

/-! ## `addResources` (the resource aggregator) -/

/-- `addResources(first, second *config.ClusterResources) config.ClusterResources`:
a `nil` `first` is replaced by a fresh empty set; every ordered-sequence
field of `first` is extended by appending `second`'s; the secret map is
merged key-wise only when both sides are allocated (otherwise `first`'s
map — possibly `nil` — is kept as-is); the value of the mutated `first`
is returned. -/
def addResources (first : Option ClusterResources) (second : ClusterResources) :
    ClusterResources :=
  let f := first.getD {}
  { Pools := f.Pools ++ second.Pools
    Peers := f.Peers ++ second.Peers
    BFDProfiles := f.BFDProfiles ++ second.BFDProfiles
    BGPAdvs := f.BGPAdvs ++ second.BGPAdvs
    L2Advs := f.L2Advs ++ second.L2Advs
    LegacyAddressPools := f.LegacyAddressPools ++ second.LegacyAddressPools
    Communities := f.Communities ++ second.Communities
    PasswordSecrets :=
      match f.PasswordSecrets, second.PasswordSecrets with
      | some m1, some m2 => some (mapInsertAll m1 m2)
      | fp, _ => fp
    Nodes := f.Nodes ++ second.Nodes
    Namespaces := f.Namespaces ++ second.Namespaces }

/-! ## Legacy (input) config shapes -/

/-- Legacy `bgpAdvertisement` spec (fields used by the source; numeric
fields are modelled as `Nat`, with `0` the Go zero value). -/
structure bgpAdvSpec where
  AggregationLength : Nat
  AggregationLengthV6 : Nat
  LocalPref : Nat
  Communities : List String
deriving DecidableEq

/-- Protocol constant `Layer2`. Go's `Proto` is a string type. -/
def Layer2 : String := "layer2"

/-- Protocol constant `BGP`. -/
def BGP : String := "bgp"

/-- Legacy `addressPool` (fields used by the source). -/
structure addressPool where
  Name : String
  Protocol : String
  Addresses : List String
  AvoidBuggyIPs : Option Bool
  AutoAssign : Option Bool
  BGPAdvertisements : List bgpAdvSpec
deriving DecidableEq

/-- Legacy `configFile`, restricted to the fields the claims exercise.
`BGPCommunities` is the Go `map[string]string` of community aliases,
represented as an association list with unique keys (its list order
stands for one possible map-iteration order). -/
structure configFile where
  Pools : List addressPool := []
  BGPCommunities : List (String × String) := []
deriving DecidableEq

/-! ## `communitiesFor` -/

/-- Lexicographic comparison of character lists; UTF-8 byte order (what
Go's `sort.Strings` compares) coincides with code-point order. -/
def charListLe : List Char → List Char → Bool
  | [], _ => true
  | _ :: _, [] => false
  | a :: as, b :: bs =>
      if a < b then true else if b < a then false else charListLe as bs

/-- String comparison underlying `sort.Strings`. -/
def strLe (a b : String) : Bool := charListLe a.data b.data

/-- Insertion step of the `sort.Strings` model. -/
def insertStr (x : String) : List String → List String
  | [] => [x]
  | y :: rest => if strLe x y then x :: y :: rest else y :: insertStr x rest

/-- Model of `sort.Strings`: insertion sort under `strLe` (any correct
sort produces the same list, `sortStrings_eq_of_perm` below). -/
def sortStrings : List String → List String
  | [] => []
  | x :: rest => insertStr x (sortStrings rest)

/-- `communitiesFor`: no output resource for an empty alias map; otherwise
a single `"communities"` resource whose aliases are the map entries sorted
by alias name. -/
def communitiesFor (cf : configFile) : List Community :=
  if cf.BGPCommunities.length = 0 then []
  else
    let sortedCommunities := sortStrings (cf.BGPCommunities.map Prod.fst)
    let communitiesAliases := sortedCommunities.map fun v =>
      { Name := v, Value := (lookupKV cf.BGPCommunities v).getD "" : CommunityAlias }
    [{ Name := "communities"
       Namespace := resourcesNameSpace
       Communities := communitiesAliases }]

/-! ## `bgpAdvertisementsFor` / `l2AdvertisementsFor` -/

/-- `emptyBGPAdv`: the synthesized advertisement for a `bgp` pool with no
explicit advertisement specs; every field but name/namespace/pool
reference is the Go zero value. -/
def emptyBGPAdv (addressPoolName : String) (index : Nat) : BGPAdvertisement :=
  { Name := "bgpadvertisement" ++ toString index
    Namespace := resourcesNameSpace
    Communities := []
    AggregationLength := 0
    AggregationLengthV6 := 0
    LocalPref := 0
    IPAddressPools := [addressPoolName] }

/-- Body of the inner loop of `bgpAdvertisementsFor`: the advertisement
built from one explicit spec (community list copied, pool reference set to
the single originating pool). -/
def advFor (apName : String) (index : Nat) (sp : bgpAdvSpec) : BGPAdvertisement :=
  { Name := "bgpadvertisement" ++ toString index
    Namespace := resourcesNameSpace
    Communities := sp.Communities
    AggregationLength := sp.AggregationLength
    AggregationLengthV6 := sp.AggregationLengthV6
    LocalPref := sp.LocalPref
    IPAddressPools := [apName] }

/-- Inner loop of `bgpAdvertisementsFor` over one pool's explicit specs,
threading the shared index; returns the emitted advertisements and the
next index value. -/
def advsOfSpecs (apName : String) : List bgpAdvSpec → Nat → List BGPAdvertisement × Nat
  | [], index => ([], index)
  | sp :: rest, index =>
      let r := advsOfSpecs apName rest (index + 1)
      (advFor apName index sp :: r.1, r.2)

/-- Outer loop of `bgpAdvertisementsFor` over the pools, threading the
single shared index across pools; a `bgp` pool with no explicit specs
receives one synthesized advertisement. -/
def bgpAdvsOfPools : List addressPool → Nat → List BGPAdvertisement
  | [], _ => []
  | ap :: rest, index =>
      let r := advsOfSpecs ap.Name ap.BGPAdvertisements index
      if ap.BGPAdvertisements.length = 0 ∧ ap.Protocol = BGP then
        r.1 ++ [emptyBGPAdv ap.Name r.2] ++ bgpAdvsOfPools rest (r.2 + 1)
      else
        r.1 ++ bgpAdvsOfPools rest r.2

/-- `bgpAdvertisementsFor`: index starts at 1. -/
def bgpAdvertisementsFor (c : configFile) : List BGPAdvertisement :=
  bgpAdvsOfPools c.Pools 1

/-- Loop of `l2AdvertisementsFor`: one advertisement per `layer2` pool,
with its own index incremented only on qualifying pools. -/
def l2AdvsOfPools : List addressPool → Nat → List L2Advertisement
  | [], _ => []
  | ap :: rest, index =>
      if ap.Protocol = Layer2 then
        { Name := "l2advertisement" ++ toString index
          Namespace := resourcesNameSpace
          IPAddressPools := [ap.Name] : L2Advertisement } :: l2AdvsOfPools rest (index + 1)
      else
        l2AdvsOfPools rest index

/-- `l2AdvertisementsFor`: index starts at 1. -/
def l2AdvertisementsFor (c : configFile) : List L2Advertisement :=
  l2AdvsOfPools c.Pools 1

/-! ## IEEE-754 binary64 arithmetic, exactly

Go computes the fractional-digit contribution of `ParseDuration` and the
second count of `Duration.Seconds` in `float64`. Both are modelled
exactly: a float value is represented by the fraction it denotes, and
rounding to the nearest binary64 value (53 significand bits, ties to
even) is carried out in integer arithmetic. Every value these code paths
can produce lies far inside the normal range, so neither subnormals,
infinities nor NaNs can arise and are not modelled. -/

/-- Number of binary digits of a natural number (`0` for `0`); the fuel
bounds the recursion and is ample for every magnitude reachable here. -/
def bitlenAux : Nat → Nat → Nat
  | 0, _ => 0
  | fuel + 1, n => if n = 0 then 0 else bitlenAux fuel (n / 2) + 1

/-- Bit length, fuelled for kernel reduction. -/
def bitlen (n : Nat) : Nat := bitlenAux 256 n

/-- Shift the scaled fraction `N / D` (exponent `s`) up until the
quotient reaches `2^52`. -/
def adjustUp : Nat → Nat × Nat × Int → Nat × Nat × Int
  | 0, t => t
  | fuel + 1, (n, d, s) =>
      if n < 2 ^ 52 * d then adjustUp fuel (n * 2, d, s + 1) else (n, d, s)

/-- Shift the scaled fraction `N / D` (exponent `s`) down until the
quotient drops below `2^53`. -/
def adjustDown : Nat → Nat × Nat × Int → Nat × Nat × Int
  | 0, t => t
  | fuel + 1, (n, d, s) =>
      if 2 ^ 53 * d ≤ n then adjustDown fuel (n, d * 2, s - 1) else (n, d, s)

/-- Round the nonnegative fraction `num / den` to the nearest IEEE-754
binary64 value (round to nearest, ties to even), returned as an exact
fraction whose denominator is a power of two. The significand `m` is the
nearest-even integer to `num/den · 2^s` with `m ∈ [2^52, 2^53]`, and the
result denotes `m · 2^(-s)`. -/
def roundF (num den : Nat) : Nat × Nat :=
  if num = 0 then (0, 1)
  else
    let s0 : Int := 52 + (bitlen den : Int) - (bitlen num : Int)
    let p : Nat × Nat :=
      if 0 ≤ s0 then (num * 2 ^ s0.toNat, den) else (num, den * 2 ^ (-s0).toNat)
    let t := adjustDown 8 (adjustUp 8 (p.1, p.2, s0))
    let m0 := t.1 / t.2.1
    let r := t.1 % t.2.1
    let m :=
      if 2 * r < t.2.1 then m0
      else if t.2.1 < 2 * r then m0 + 1
      else if m0 % 2 = 0 then m0 else m0 + 1
    if 0 ≤ t.2.2 then (m, 2 ^ t.2.2.toNat) else (m * 2 ^ (-t.2.2).toNat, 1)

/-- `uint64(n)` → `float64` conversion (rounds to nearest even). -/
def floatOfNat (n : Nat) : Nat × Nat := roundF n 1

/-- `float64` multiplication: round the exact product. -/
def mulF (a b : Nat × Nat) : Nat × Nat := roundF (a.1 * b.1) (a.2 * b.2)

/-- `float64` division: round the exact quotient. -/
def divF (a b : Nat × Nat) : Nat × Nat := roundF (a.1 * b.2) (a.2 * b.1)

/-- `float64` addition: round the exact sum. -/
def addF (a b : Nat × Nat) : Nat × Nat := roundF (a.1 * b.2 + b.1 * a.2) (a.2 * b.2)

/-- `uint64(x)` for a nonnegative `float64` `x`: truncate toward zero. -/
def truncF (a : Nat × Nat) : Nat := a.1 / a.2

/-! ## Duration parsing

Model of Go's `time.ParseDuration` and of the hold-time rule built on it.
Durations are `Int` nanoseconds; the Go `uint64` overflow guards are kept
as explicit bounds against `2^63`. The fractional-digit contribution
`uint64(float64(f) * (float64(unit) / scale))` is computed through the
exact `float64` model above (Go's `scale` is a float but always an exact
power of ten here, so carrying it as a `Nat` loses nothing). -/

/-- `leadingInt`: consume leading decimal digits into a `Nat`, failing on
overflow past `2^63 - 1` exactly as Go does. Returns the value and the
unconsumed characters. -/
def leadingIntAux : List Char → Nat → Option (Nat × List Char)
  | [], x => some (x, [])
  | c :: rest, x =>
      if c.isDigit then
        if x > (2 ^ 63 - 1) / 10 then none
        else
          let x2 := x * 10 + (c.toNat - 48)
          if x2 > 2 ^ 63 - 1 then none
          else leadingIntAux rest x2
      else some (x, c :: rest)

/-- `leadingFraction`: consume digits after the decimal point, tracking
the power-of-ten scale, silently discarding digits once the accumulator
would overflow (Go's `overflow` flag). Returns value, scale and rest. -/
def leadingFractionAux : List Char → Nat → Nat → Bool → Nat × Nat × List Char
  | [], x, scale, _ => (x, scale, [])
  | c :: rest, x, scale, overflow =>
      if c.isDigit then
        if overflow then leadingFractionAux rest x scale true
        else if x > (2 ^ 63 - 1) / 10 then leadingFractionAux rest x scale true
        else
          let y := x * 10 + (c.toNat - 48)
          if y > 2 ^ 63 - 1 then leadingFractionAux rest x scale true
          else leadingFractionAux rest y (scale * 10) overflow
      else (x, scale, c :: rest)

/-- Go's `unitMap`: nanoseconds per unit suffix. -/
def unitMap : String → Option Nat
  | "ns" => some 1
  | "us" => some 1000
  | "µs" => some 1000
  | "μs" => some 1000
  | "ms" => some 1000000
  | "s" => some 1000000000
  | "m" => some 60000000000
  | "h" => some 3600000000000
  | _ => none

/-- Length of the unit token: characters up to the next digit or dot. -/
def unitLen : List Char → Nat
  | [] => 0
  | c :: rest => if c = '.' ∨ c.isDigit then 0 else unitLen rest + 1

/-- One pass of the `for s != ""` loop of `ParseDuration`: number, optional
fraction, unit, overflow checks, accumulate. `fuel` bounds the recursion;
each real iteration consumes at least one character, so fuel `length + 1`
is never exhausted. -/
def parseLoop : Nat → List Char → Nat → Option Nat
  | _, [], d => some d
  | 0, _ :: _, _ => none
  | fuel + 1, s@(c :: _), d =>
      if ¬(c = '.' ∨ c.isDigit) then none
      else
        match leadingIntAux s 0 with
        | none => none
        | some (v, s1) =>
            let pre : Bool := s1.length != s.length
            let step :=
              match s1 with
              | '.' :: s1' =>
                  let r := leadingFractionAux s1' 0 1 false
                  (r.1, r.2.1, r.2.2, (r.2.2.length != s1'.length : Bool))
              | _ => (0, 1, s1, false)
            let f := step.1
            let scale := step.2.1
            let s2 := step.2.2.1
            let post := step.2.2.2
            if !pre && !post then none
            else
              let i := unitLen s2
              if i = 0 then none
              else
                match unitMap (String.mk (s2.take i)) with
                | none => none
                | some unit =>
                    if v > 2 ^ 63 / unit then none
                    else
                      let v1 := v * unit
                      let v2 :=
                        if f > 0 then
                          v1 + truncF (mulF (floatOfNat f)
                            (divF (floatOfNat unit) (floatOfNat scale)))
                        else v1
                      if f > 0 ∧ v2 > 2 ^ 63 then none
                      else
                        let d2 := d + v2
                        if d2 > 2 ^ 63 then none
                        else parseLoop fuel (s2.drop i) d2

/-- `time.ParseDuration`: optional sign, the `"0"` special case, then the
repeated number/fraction/unit loop; a positive result beyond
`2^63 - 1` nanoseconds is rejected. `none` is Go's error return. -/
def parseDuration (s : String) : Option Int :=
  let cs0 := s.toList
  let signed :=
    match cs0 with
    | '-' :: rest => (true, rest)
    | '+' :: rest => (false, rest)
    | cs => (false, cs)
  let neg := signed.1
  let cs := signed.2
  if cs = ['0'] then some 0
  else if cs = [] then none
  else
    match parseLoop (cs.length + 1) cs 0 with
    | none => none
    | some d =>
        if neg then some (-(d : Int))
        else if d > 2 ^ 63 - 1 then none
        else some (d : Int)

/-- Nanoseconds per second (`time.Second`). -/
def nsPerSecond : Int := 1000000000

/-- `d.Seconds()` for a nonnegative duration, then `int(...)`:
`float64(sec) + float64(nsec)/1e9` computed in the exact `float64`
model, truncated toward zero. The float addition can round up to
`sec + 1` when `sec ≥ 2^24` and `nsec` is close to a whole second, so
this is NOT always truncation of `d` to whole seconds. -/
def goSecondsPos (d : Nat) : Nat :=
  truncF (addF (floatOfNat (d / 1000000000))
    (divF (floatOfNat (d % 1000000000)) (floatOfNat 1000000000)))

/-- `int(d.Seconds())`: both Go's integer division/remainder and its
`float64` arithmetic and truncation are magnitude-symmetric, so a
negative duration goes through the nonnegative case negated. -/
def goSecondsInt (d : Int) : Int :=
  if 0 ≤ d then (goSecondsPos d.toNat : Int) else -(goSecondsPos (-d).toNat : Int)

/-- `parseHoldTime`: empty text defaults to 90s; otherwise parse,
convert to whole seconds via `int(d.Seconds())`, and reject a resulting
value that is neither 0 nor at least 3s. -/
def parseHoldTime (ht : String) : Except String Int :=
  if ht = "" then .ok (90 * nsPerSecond)
  else
    match parseDuration ht with
    | none => .error ("invalid hold time " ++ ht)
    | some d =>
        let rounded := goSecondsInt d * nsPerSecond
        if rounded ≠ 0 ∧ rounded < 3 * nsPerSecond then
          .error ("invalid hold time " ++ ht ++ ": must be 0 or >=3s")
        else .ok rounded

/-! ## Pool reconciliation controller

`PoolReconciler.Reconcile` is embedded as a pure function from an
environment (the outcome of every external call the cycle makes: the
four list requests, the configmap get, the legacy decoder, the legacy
translator, the config builder and the Handler) and a controller state
(the `currentConfig` field plus the observability counters/gauges and
invocation counts) to the returned error and the successor state. -/

/-- `SyncState` is an integer-backed enumeration declared outside the
translated file; `Nat` keeps it open so that values beyond the declared
constants can be examined, exactly as Go's `switch` must handle them. -/
abbrev SyncState := Nat

/-- Handler outcome: success (the zero value). -/
def SyncStateSuccess : SyncState := 0

/-- Handler outcome: retryable error. -/
def SyncStateError : SyncState := 1

/-- Handler outcome: non-retryable error. -/
def SyncStateErrorNoRetry : SyncState := 2

/-- Handler outcome: success requiring a full downstream reprocess. -/
def SyncStateReprocessAll : SyncState := 3

/-- Errors crossing the controller boundary. `notFound` is the store's
NotFound (`apierrors.IsNotFound`), `retry` is the controller's own
`errRetry`, `generic` is any other error value. -/
inductive GoErr
  | notFound
  | generic
  | retry
deriving DecidableEq

/-- `corev1.ConfigMap`, opaque but for a zero value (what `legacyConfig`
holds when the get returns NotFound). -/
structure ConfigMapV where
  data : List (String × String) := []
deriving DecidableEq

/-- Everything external a single reconcile invocation consumes. `Cfg` is
the effective-config type (`*config.Config`), `Pools` the pool-set type
handed to the Handler. -/
structure ReconcileEnv (Cfg Pools : Type) where
  addressPools : Except GoErr (List LegacyAddressPool)
  ipAddressPools : Except GoErr (List IPAddressPool)
  communities : Except GoErr (List Community)
  namespaces : Except GoErr (List NamespaceV)
  legacyCM : Except GoErr ConfigMapV
  decodeLegacyCM : ConfigMapV → Except GoErr configFile
  resourcesFor : configFile → Except GoErr ClusterResources
  toConfig : ClusterResources → Except GoErr Cfg
  poolsOf : Cfg → Pools
  handler : Pools → SyncState

/-- The controller's persistent field `currentConfig` plus the
observability sinks (`updates`, `updateErrors` counters; `configLoaded`,
`configStale` gauges) and counts of Handler / ForceReload invocations. -/
structure ReconcileState (Cfg : Type) where
  currentConfig : Option Cfg := none
  updates : Nat := 0
  updateErrors : Nat := 0
  configLoaded : Nat := 0
  configStale : Nat := 0
  handlerCalls : Nat := 0
  forceReloads : Nat := 0

/-- The `resources` literal assembled from the fetched structured
objects before the legacy resources are merged in. -/
def fetchedResources (aps : List LegacyAddressPool) (ipools : List IPAddressPool)
    (comms : List Community) (nss : List NamespaceV) : ClusterResources :=
  { Pools := ipools
    LegacyAddressPools := aps
    Communities := comms
    Namespaces := nss }

/-- `conversion.AddLegacyResources`, the exported wrapper the controller
calls; it is the aggregator `addResources`. -/
def AddLegacyResources (first : Option ClusterResources) (second : ClusterResources) :
    ClusterResources :=
  addResources first second

/-- Tail of `Reconcile` from the point where every fetch has succeeded:
decode, translate, aggregate, build, diff, apply, interpret the outcome. -/
def reconcileBody {Cfg Pools : Type} [DecidableEq Cfg]
    (env : ReconcileEnv Cfg Pools) (s : ReconcileState Cfg)
    (aps : List LegacyAddressPool) (ipools : List IPAddressPool)
    (comms : List Community) (nss : List NamespaceV)
    (legacyConfig : ConfigMapV) : Option GoErr × ReconcileState Cfg :=
  match env.decodeLegacyCM legacyConfig with
  | .error e => (some e, s)
  | .ok legacyCF =>
    match env.resourcesFor legacyCF with
    | .error e => (some e, s)
    | .ok legacyResources =>
      let resources := AddLegacyResources (some (fetchedResources aps ipools comms nss))
        legacyResources
      match env.toConfig resources with
      | .error _ => (none, { s with configStale := 1 })
      | .ok cfg =>
        if s.currentConfig = some cfg then (none, s)
        else
          let s1 := { s with handlerCalls := s.handlerCalls + 1 }
          let res := env.handler (env.poolsOf cfg)
          if res = SyncStateError then
            (some .retry, { s1 with updateErrors := s1.updateErrors + 1, configStale := 1 })
          else if res = SyncStateErrorNoRetry then
            (none, { s1 with updateErrors := s1.updateErrors + 1, configStale := 1 })
          else
            let s2 :=
              if res = SyncStateReprocessAll then
                { s1 with forceReloads := s1.forceReloads + 1 }
              else s1
            (none, { s2 with currentConfig := some cfg, configLoaded := 1, configStale := 0 })

/-- `PoolReconciler.Reconcile`: the attempt counter is bumped first, each
fetch error aborts the cycle (NotFound on the legacy configmap is
tolerated, leaving the zero-value configmap), then `reconcileBody`. -/
def Reconcile {Cfg Pools : Type} [DecidableEq Cfg]
    (env : ReconcileEnv Cfg Pools) (s0 : ReconcileState Cfg) :
    Option GoErr × ReconcileState Cfg :=
  let s := { s0 with updates := s0.updates + 1 }
  match env.addressPools with
  | .error e => (some e, s)
  | .ok aps =>
    match env.ipAddressPools with
    | .error e => (some e, s)
    | .ok ipools =>
      match env.communities with
      | .error e => (some e, s)
      | .ok comms =>
        match env.namespaces with
        | .error e => (some e, s)
        | .ok nss =>
          match env.legacyCM with
          | .error e =>
            if e = .notFound then reconcileBody env s aps ipools comms nss {}
            else (some e, s)
          | .ok cm => reconcileBody env s aps ipools comms nss cm

/-! ## Helper lemmas about the Go-map model -/

/-- First-of-two-options: the overwrite semantics of a key-wise merge at
the level of a single lookup. -/
def firstSome (a b : Option String) : Option String :=
  match a with
  | some v => some v
  | none => b

theorem lookupKV_eq_none_of_not_mem (m : List (String × String)) (k : String)
    (h : k ∉ m.map Prod.fst) : lookupKV m k = none := by
  induction m with
  | nil => rfl
  | cons p rest ih =>
      simp only [List.map_cons, List.mem_cons, not_or] at h
      have hne : p.1 ≠ k := fun hp => h.1 hp.symm
      simp [lookupKV, hne, ih h.2]

theorem lookupKV_mapInsert_self (m : List (String × String)) (k v : String) :
    lookupKV (mapInsert m k v) k = some v := by
  induction m with
  | nil => simp [mapInsert, lookupKV]
  | cons p rest ih =>
      by_cases h : p.1 = k
      · simp [mapInsert, h, lookupKV]
      · simp [mapInsert, h, lookupKV, ih]

theorem lookupKV_mapInsert_ne (m : List (String × String)) (k v k' : String)
    (h : k ≠ k') : lookupKV (mapInsert m k v) k' = lookupKV m k' := by
  induction m with
  | nil => simp [mapInsert, lookupKV, h]
  | cons p rest ih =>
      by_cases hp : p.1 = k
      · simp [mapInsert, hp, lookupKV, h]
      · simp only [mapInsert, hp, if_false, lookupKV]
        by_cases hp' : p.1 = k'
        · simp [hp']
        · simp [hp', ih]

/-- Key-wise merge at lookup level: after writing every entry of `m2`
(a map, so its keys are unique) into `m1`, a lookup hits `m2` first and
falls back to `m1`. -/
theorem lookupKV_mapInsertAll (m2 : List (String × String))
    (hnd : (m2.map Prod.fst).Nodup) (m1 : List (String × String)) (k : String) :
    lookupKV (mapInsertAll m1 m2) k = firstSome (lookupKV m2 k) (lookupKV m1 k) := by
  induction m2 generalizing m1 with
  | nil => simp [mapInsertAll, lookupKV, firstSome]
  | cons p rest ih =>
      simp only [List.map_cons, List.nodup_cons] at hnd
      have hstep : mapInsertAll m1 (p :: rest) = mapInsertAll (mapInsert m1 p.1 p.2) rest := by
        simp [mapInsertAll]
      rw [hstep, ih hnd.2]
      by_cases hk : p.1 = k
      · subst hk
        rw [lookupKV_eq_none_of_not_mem rest p.1 hnd.1]
        simp [lookupKV, firstSome, lookupKV_mapInsert_self]
      · simp [lookupKV, hk, lookupKV_mapInsert_ne m1 p.1 p.2 k hk]

/-! ## Claim C10 -/

/-- C10: `addResources(first, second)` returns the value of its (possibly
freshly allocated) first argument after mutation: every ordered-sequence
field is `first`'s followed by `second`'s, the secret entries of `second`
are written into `first`'s mapping exactly when both maps are allocated,
and a `nil` first argument behaves as a fresh empty resource set, so it
never faults. -/
theorem addResources_extends_first (first : Option ClusterResources)
    (second : ClusterResources) :
    ((addResources first second).Pools = (first.getD {}).Pools ++ second.Pools
      ∧ (addResources first second).Peers = (first.getD {}).Peers ++ second.Peers
      ∧ (addResources first second).BFDProfiles
          = (first.getD {}).BFDProfiles ++ second.BFDProfiles
      ∧ (addResources first second).BGPAdvs = (first.getD {}).BGPAdvs ++ second.BGPAdvs
      ∧ (addResources first second).L2Advs = (first.getD {}).L2Advs ++ second.L2Advs
      ∧ (addResources first second).LegacyAddressPools
          = (first.getD {}).LegacyAddressPools ++ second.LegacyAddressPools
      ∧ (addResources first second).Communities
          = (first.getD {}).Communities ++ second.Communities
      ∧ (addResources first second).Nodes = (first.getD {}).Nodes ++ second.Nodes
      ∧ (addResources first second).Namespaces
          = (first.getD {}).Namespaces ++ second.Namespaces)
    ∧ (∀ m1 m2, (first.getD {}).PasswordSecrets = some m1 →
        second.PasswordSecrets = some m2 →
        (addResources first second).PasswordSecrets = some (mapInsertAll m1 m2))
    ∧ addResources none second = addResources (some {}) second := by
  refine ⟨⟨rfl, rfl, rfl, rfl, rfl, rfl, rfl, rfl, rfl⟩, ?_, rfl⟩
  intro m1 m2 h1 h2
  simp [addResources, h1, h2]

/-- Concrete first argument for the C10 witness: allocated secret map. -/
def crW1 : ClusterResources := { PasswordSecrets := some [("a", "1"), ("k", "old")] }

/-- Concrete second argument for the C10 witness: allocated secret map. -/
def crW2 : ClusterResources :=
  { Pools := [⟨"p", "", [], false, none⟩]
    PasswordSecrets := some [("k", "new")] }

/-- C10 witness: both secret maps allocated, `second`'s entries written
into `first`'s map. -/
theorem addResources_extends_first_witness :
    (addResources (some crW1) crW2).PasswordSecrets
      = some (mapInsertAll [("a", "1"), ("k", "old")] [("k", "new")]) :=
  (addResources_extends_first (some crW1) crW2).2.1 _ _ (by rfl) (by rfl)

/-! ## Claim C1 -/

/-- Concrete first resource set with an unallocated (`nil`) secret map. -/
def crNilMapFirst : ClusterResources := {}

/-- Concrete second resource set with an allocated, non-empty secret map. -/
def crAllocSecond : ClusterResources := { PasswordSecrets := some [("k", "v")] }

/-- C1 counterexample: with `first`'s secret map unallocated and
`second`'s allocated, the merge result's map is NOT `second`'s map — the
whole conditional merge is skipped and `first`'s `nil` map is kept, so
`second`'s entries are dropped. -/
theorem addResources_nil_first_drops_second_map :
    crNilMapFirst.PasswordSecrets = none
    ∧ crAllocSecond.PasswordSecrets = some [("k", "v")]
    ∧ (addResources (some crNilMapFirst) crAllocSecond).PasswordSecrets
        ≠ crAllocSecond.PasswordSecrets := by
  refine ⟨rfl, rfl, ?_⟩
  decide

/-- C1 (amended): when `first`'s secret map is unallocated the result's
map is `first`'s `nil` map (`second`'s entries are dropped, not adopted);
when both maps are allocated, the result looks up `second`'s entries
first, so keys present in `second` overwrite same-named keys of
`first`. -/
theorem addResources_secret_merge (f s : ClusterResources) :
    (f.PasswordSecrets = none → (addResources (some f) s).PasswordSecrets = none)
    ∧ (∀ m1 m2, f.PasswordSecrets = some m1 → s.PasswordSecrets = some m2 →
        (m2.map Prod.fst).Nodup →
        (addResources (some f) s).PasswordSecrets = some (mapInsertAll m1 m2)
        ∧ ∀ k, lookupKV (mapInsertAll m1 m2) k
            = firstSome (lookupKV m2 k) (lookupKV m1 k)) := by
  constructor
  · intro h
    simp [addResources, h]
  · intro m1 m2 h1 h2 hnd
    exact ⟨by simp [addResources, h1, h2], fun k => lookupKV_mapInsertAll m2 hnd m1 k⟩

/-- C1 witness: allocated maps on both sides; the shared key `"k"` takes
`second`'s value, the key `"a"` only `first` has survives. -/
theorem addResources_secret_merge_witness :
    (addResources (some crW1) crW2).PasswordSecrets
        = some (mapInsertAll [("a", "1"), ("k", "old")] [("k", "new")])
      ∧ lookupKV (mapInsertAll [("a", "1"), ("k", "old")] [("k", "new")]) "k"
          = firstSome (lookupKV [("k", "new")] "k")
              (lookupKV [("a", "1"), ("k", "old")] "k") :=
  ⟨((addResources_secret_merge crW1 crW2).2 _ _ (by rfl) (by rfl) (by decide)).1,
   ((addResources_secret_merge crW1 crW2).2 _ _ (by rfl) (by rfl) (by decide)).2 "k"⟩

/-! ## Order lemmas for the `sort.Strings` model -/

theorem charListLe_total : ∀ as bs : List Char,
    charListLe as bs = true ∨ charListLe bs as = true
  | [], _ => Or.inl rfl
  | _ :: _, [] => Or.inr rfl
  | a :: as, b :: bs => by
      rcases lt_trichotomy a b with h | h | h
      · exact Or.inl (by simp [charListLe, h])
      · subst h
        rcases charListLe_total as bs with ih | ih
        · exact Or.inl (by simp [charListLe, lt_irrefl, ih])
        · exact Or.inr (by simp [charListLe, lt_irrefl, ih])
      · exact Or.inr (by simp [charListLe, h])

theorem charListLe_antisymm : ∀ as bs : List Char,
    charListLe as bs = true → charListLe bs as = true → as = bs
  | [], [], _, _ => rfl
  | [], _ :: _, _, h2 => by simp [charListLe] at h2
  | _ :: _, [], h1, _ => by simp [charListLe] at h1
  | a :: as, b :: bs, h1, h2 => by
      rcases lt_trichotomy a b with h | h | h
      · simp [charListLe, h, lt_asymm h] at h2
      · subst h
        simp only [charListLe, lt_irrefl, if_false] at h1 h2
        rw [charListLe_antisymm as bs h1 h2]
      · simp [charListLe, h, lt_asymm h] at h1

theorem charListLe_trans : ∀ as bs cs : List Char,
    charListLe as bs = true → charListLe bs cs = true → charListLe as cs = true
  | [], _, _, _, _ => rfl
  | _ :: _, [], _, h1, _ => by simp [charListLe] at h1
  | _ :: _, _ :: _, [], _, h2 => by simp [charListLe] at h2
  | a :: as, b :: bs, c :: cs, h1, h2 => by
      by_cases hab : a < b
      · by_cases hbc : b < c
        · simp [charListLe, lt_trans hab hbc]
        · by_cases hcb : c < b
          · simp [charListLe, hbc, hcb] at h2
          · have hbc' : b = c := le_antisymm (not_lt.mp hcb) (not_lt.mp hbc)
            subst hbc'
            simp [charListLe, hab]
      · by_cases hba : b < a
        · simp [charListLe, hab, hba] at h1
        · have hab' : a = b := le_antisymm (not_lt.mp hba) (not_lt.mp hab)
          subst hab'
          simp only [charListLe, lt_irrefl, if_false] at h1
          by_cases hac : a < c
          · simp [charListLe, hac]
          · by_cases hca : c < a
            · simp [charListLe, hac, hca] at h2
            · have hac' : a = c := le_antisymm (not_lt.mp hca) (not_lt.mp hac)
              subst hac'
              simp only [charListLe, lt_irrefl, if_false] at h2 ⊢
              exact charListLe_trans as bs cs h1 h2

theorem strLe_total (a b : String) : strLe a b = true ∨ strLe b a = true :=
  charListLe_total a.data b.data

theorem strLe_antisymm (a b : String) (h1 : strLe a b = true) (h2 : strLe b a = true) :
    a = b := by
  cases a; cases b
  exact congrArg String.mk (charListLe_antisymm _ _ h1 h2)

theorem strLe_trans (a b c : String) (h1 : strLe a b = true) (h2 : strLe b c = true) :
    strLe a c = true :=
  charListLe_trans a.data b.data c.data h1 h2

theorem perm_insertStr (x : String) (l : List String) : (insertStr x l).Perm (x :: l) := by
  induction l with
  | nil => exact List.Perm.refl _
  | cons y rest ih =>
      by_cases h : strLe x y
      · simp [insertStr, h]
      · simp only [insertStr, h, if_false]
        exact (ih.cons y).trans (List.Perm.swap x y rest)

theorem perm_sortStrings (l : List String) : (sortStrings l).Perm l := by
  induction l with
  | nil => exact List.Perm.refl _
  | cons x rest ih =>
      exact (perm_insertStr x (sortStrings rest)).trans (ih.cons x)

theorem mem_insertStr {b x : String} {l : List String} (h : b ∈ insertStr x l) :
    b = x ∨ b ∈ l := by
  have := (perm_insertStr x l).mem_iff.mp h
  simpa using this

theorem sorted_insertStr (x : String) (l : List String)
    (h : List.Sorted (fun a b => strLe a b = true) l) :
    List.Sorted (fun a b => strLe a b = true) (insertStr x l) := by
  induction l with
  | nil => simp [insertStr]
  | cons y rest ih =>
      rw [List.sorted_cons] at h
      by_cases hxy : strLe x y
      · simp only [insertStr]
        rw [if_pos hxy, List.sorted_cons]
        refine ⟨?_, List.sorted_cons.mpr h⟩
        intro b hb
        rcases List.mem_cons.mp hb with hb | hb
        · exact hb ▸ hxy
        · exact strLe_trans x y b hxy (h.1 b hb)
      · simp only [insertStr]
        rw [if_neg hxy, List.sorted_cons]
        refine ⟨?_, ih h.2⟩
        intro b hb
        rcases mem_insertStr hb with hb | hb
        · rw [hb]
          rcases strLe_total x y with ht | ht
          · exact absurd ht hxy
          · exact ht
        · exact h.1 b hb

theorem sorted_sortStrings (l : List String) :
    List.Sorted (fun a b => strLe a b = true) (sortStrings l) := by
  induction l with
  | nil => simp [sortStrings]
  | cons x rest ih => exact sorted_insertStr x (sortStrings rest) ih

/-- `sortStrings` is a canonical form: permuted inputs sort identically. -/
theorem sortStrings_eq_of_perm (l1 l2 : List String) (hp : l1.Perm l2) :
    sortStrings l1 = sortStrings l2 :=
  @List.eq_of_perm_of_sorted _ _ ⟨fun _ _ h1 h2 => strLe_antisymm _ _ h1 h2⟩ _ _
    (((perm_sortStrings l1).trans hp).trans (perm_sortStrings l2).symm)
    (sorted_sortStrings l1) (sorted_sortStrings l2)

/-- Lookup in the Go-map model is stable under reordering the entry list,
as long as the keys are unique (which a map's entries always are). -/
theorem lookupKV_perm (k : String) : ∀ {m1 m2 : List (String × String)}, m1.Perm m2 →
    (m1.map Prod.fst).Nodup → lookupKV m1 k = lookupKV m2 k := by
  intro m1 m2 hp
  induction hp with
  | nil => intro _; rfl
  | cons p hp ih =>
      intro hnd
      simp only [List.map_cons, List.nodup_cons] at hnd
      by_cases h : p.1 = k
      · simp [lookupKV, h]
      · simp [lookupKV, h, ih hnd.2]
  | swap p q l =>
      intro hnd
      simp only [List.map_cons, List.nodup_cons, List.mem_cons, not_or] at hnd
      by_cases hq : q.1 = k
      · have hpk : p.1 ≠ k := fun hpk => hnd.1.1 (hq.trans hpk.symm)
        simp [lookupKV, hq, hpk]
      · by_cases hpk : p.1 = k
        · simp [lookupKV, hq, hpk]
        · simp [lookupKV, hq, hpk]
  | trans h1 h2 ih1 ih2 =>
      intro hnd
      rw [ih1 hnd, ih2 (((h1.map Prod.fst).nodup_iff).mp hnd)]

/-! ## Claim C7 -/

/-- C7: an empty alias map yields no community resource; a non-empty one
yields exactly one resource named `"communities"` whose alias sequence is
a permutation of the map's entries sorted by alias name with each value
taken from the map; the output is invariant under reordering the map's
entries (iteration-order independence); and the spec's example
`b ↦ 100, a ↦ 200` yields `[a:200, b:100]`. -/
theorem communitiesFor_spec :
    (∀ cf : configFile, cf.BGPCommunities = [] → communitiesFor cf = [])
    ∧ (∀ cf : configFile, cf.BGPCommunities ≠ [] →
        (communitiesFor cf).map Community.Name = ["communities"]
        ∧ ∀ c ∈ communitiesFor cf,
            (c.Communities.map CommunityAlias.Name).Perm (cf.BGPCommunities.map Prod.fst)
            ∧ c.Communities.Pairwise (fun a b => strLe a.Name b.Name = true)
            ∧ ∀ a ∈ c.Communities, (lookupKV cf.BGPCommunities a.Name).getD "" = a.Value)
    ∧ (∀ cf1 cf2 : configFile, cf1.BGPCommunities.Perm cf2.BGPCommunities →
        (cf1.BGPCommunities.map Prod.fst).Nodup →
        communitiesFor cf1 = communitiesFor cf2)
    ∧ communitiesFor { BGPCommunities := [("b", "100"), ("a", "200")] }
        = [{ Name := "communities", Namespace := resourcesNameSpace,
             Communities := [{ Name := "a", Value := "200" },
                             { Name := "b", Value := "100" }] }] := by
  have hne : ∀ cf : configFile, cf.BGPCommunities ≠ [] →
      ¬ cf.BGPCommunities.length = 0 := by
    intro cf h h0
    exact h (List.length_eq_zero.mp h0)
  refine ⟨?_, ?_, ?_, ?_⟩
  · intro cf h
    simp [communitiesFor, h]
  · intro cf h
    simp only [communitiesFor, if_neg (hne cf h)]
    constructor
    · rfl
    · intro c hc
      rw [List.mem_singleton] at hc
      subst hc
      refine ⟨?_, ?_, ?_⟩
      · simp only [List.map_map]
        have : (CommunityAlias.Name ∘ fun v =>
            ({ Name := v, Value := (lookupKV cf.BGPCommunities v).getD "" } : CommunityAlias))
            = id := rfl
        rw [this, List.map_id]
        exact perm_sortStrings _
      · rw [List.pairwise_map]
        exact sorted_sortStrings _
      · intro a ha
        rcases List.mem_map.mp ha with ⟨v, _, rfl⟩
        rfl
  · intro cf1 cf2 hp hnd
    by_cases h1 : cf1.BGPCommunities = []
    · have h2 : cf2.BGPCommunities = [] := (h1 ▸ hp).symm.eq_nil
      simp [communitiesFor, h1, h2]
    · have h2 : cf2.BGPCommunities ≠ [] := by
        intro h2
        exact h1 (h2 ▸ hp).eq_nil
      simp only [communitiesFor, if_neg (hne cf1 h1), if_neg (hne cf2 h2)]
      have hkeys : sortStrings (cf1.BGPCommunities.map Prod.fst)
          = sortStrings (cf2.BGPCommunities.map Prod.fst) :=
        sortStrings_eq_of_perm _ _ (hp.map Prod.fst)
      rw [hkeys]
      have hvals : ∀ v, lookupKV cf1.BGPCommunities v = lookupKV cf2.BGPCommunities v :=
        fun v => lookupKV_perm v hp hnd
      simp only [hvals]
  · decide

/-- C7 witness: the example map in two different entry orders produces
the identical single sorted resource. -/
theorem communitiesFor_spec_witness :
    communitiesFor { BGPCommunities := [("b", "100"), ("a", "200")] }
      = communitiesFor { BGPCommunities := [("a", "200"), ("b", "100")] } :=
  communitiesFor_spec.2.2.1
    { BGPCommunities := [("b", "100"), ("a", "200")] }
    { BGPCommunities := [("a", "200"), ("b", "100")] }
    (by decide) (by decide)

/-! ## Claim C4 -/

/-- Name-erased view of an advertisement: what a pool contributes
independently of the shared naming counter. -/
def eraseName (b : BGPAdvertisement) : BGPAdvertisement := { b with Name := "" }

/-- Content one pool contributes to the BGP-advertisement translation:
one advertisement per explicit spec in order, or one synthesized empty
advertisement when the pool declares protocol `bgp` with no specs. -/
def poolBGPContribution (ap : addressPool) : List BGPAdvertisement :=
  if ap.BGPAdvertisements.length = 0 ∧ ap.Protocol = BGP then
    [eraseName (emptyBGPAdv ap.Name 0)]
  else
    ap.BGPAdvertisements.map fun sp => eraseName (advFor ap.Name 0 sp)

theorem advsOfSpecs_snd (n : String) : ∀ (l : List bgpAdvSpec) (i : Nat),
    (advsOfSpecs n l i).2 = i + l.length
  | [], i => by simp [advsOfSpecs]
  | sp :: rest, i => by
      simp only [advsOfSpecs, advsOfSpecs_snd n rest (i + 1), List.length_cons]
      omega

theorem advsOfSpecs_eraseName (n : String) : ∀ (l : List bgpAdvSpec) (i : Nat),
    (advsOfSpecs n l i).1.map eraseName = l.map fun sp => eraseName (advFor n 0 sp)
  | [], _ => rfl
  | sp :: rest, i => by
      simp only [advsOfSpecs, List.map_cons, advsOfSpecs_eraseName n rest (i + 1)]
      rfl

theorem advsOfSpecs_names (n : String) : ∀ (l : List bgpAdvSpec) (i : Nat),
    (advsOfSpecs n l i).1.map BGPAdvertisement.Name
      = (List.range l.length).map fun j => "bgpadvertisement" ++ toString (i + j)
  | [], _ => rfl
  | sp :: rest, i => by
      simp only [advsOfSpecs, List.map_cons, advsOfSpecs_names n rest (i + 1),
        List.length_cons, List.range_succ_eq_map, List.map_map]
      refine congrArg₂ List.cons ?_ ?_
      · simp [advFor]
      · apply List.map_congr_left
        intro j _
        have : i + 1 + j = i + (j + 1) := by omega
        simp [Function.comp, this]

theorem advsOfSpecs_length (n : String) (l : List bgpAdvSpec) (i : Nat) :
    (advsOfSpecs n l i).1.length = l.length := by
  have := congrArg List.length (advsOfSpecs_eraseName n l i)
  simpa using this

theorem bgpAdvsOfPools_eraseName : ∀ (pools : List addressPool) (i : Nat),
    (bgpAdvsOfPools pools i).map eraseName = pools.flatMap poolBGPContribution
  | [], _ => rfl
  | ap :: rest, i => by
      by_cases hc : ap.BGPAdvertisements.length = 0 ∧ ap.Protocol = BGP
      · have hnil : ap.BGPAdvertisements = [] := List.length_eq_zero.mp hc.1
        rw [bgpAdvsOfPools, if_pos hc, List.flatMap_cons, poolBGPContribution,
          if_pos hc, hnil]
        simp only [advsOfSpecs, List.nil_append, List.map_append, List.map_cons,
          List.map_nil, bgpAdvsOfPools_eraseName rest]
        rfl
      · rw [bgpAdvsOfPools, if_neg hc, List.flatMap_cons, poolBGPContribution,
          if_neg hc]
        simp only [List.map_append, advsOfSpecs_eraseName,
          bgpAdvsOfPools_eraseName rest]

theorem bgpAdvsOfPools_names : ∀ (pools : List addressPool) (i : Nat),
    (bgpAdvsOfPools pools i).map BGPAdvertisement.Name
      = (List.range (bgpAdvsOfPools pools i).length).map
          fun j => "bgpadvertisement" ++ toString (i + j)
  | [], _ => rfl
  | ap :: rest, i => by
      by_cases hc : ap.BGPAdvertisements.length = 0 ∧ ap.Protocol = BGP
      · have hnil : ap.BGPAdvertisements = [] := List.length_eq_zero.mp hc.1
        rw [bgpAdvsOfPools, if_pos hc, hnil]
        simp only [advsOfSpecs, List.nil_append, List.singleton_append, List.map_cons,
          List.length_cons, bgpAdvsOfPools_names rest, List.range_succ_eq_map,
          List.map_map]
        refine congrArg₂ List.cons ?_ ?_
        · simp [emptyBGPAdv]
        · apply List.map_congr_left
          intro j _
          have : i + 1 + j = i + (j + 1) := by omega
          simp [Function.comp, this]
      · rw [bgpAdvsOfPools, if_neg hc]
        simp only [List.map_append, List.length_append, advsOfSpecs_names,
          bgpAdvsOfPools_names rest, advsOfSpecs_snd, advsOfSpecs_length,
          List.range_add, List.map_map]
        refine congrArg₂ (· ++ ·) rfl ?_
        apply List.map_congr_left
        intro j _
        have : i + ap.BGPAdvertisements.length + j
            = i + (ap.BGPAdvertisements.length + j) := by omega
        simp [Function.comp, this]

/-- C4: the BGP-advertisement translation names its outputs
`bgpadvertisement<N>` with `N` one shared counter starting at 1 across
all pools; stripped of names, the output is the concatenation over pools
(in order) of each pool's contribution: one advertisement per explicit
spec (communities copied, pool reference = that single pool), with a
`bgp` pool having no specs contributing exactly one synthesized
advertisement (all numeric fields zero) and a `layer2` pool never
receiving a synthesized one. -/
theorem bgpAdvertisementsFor_spec (c : configFile) :
    ((bgpAdvertisementsFor c).map BGPAdvertisement.Name
      = (List.range (bgpAdvertisementsFor c).length).map
          fun i => "bgpadvertisement" ++ toString (i + 1))
    ∧ (bgpAdvertisementsFor c).map eraseName = c.Pools.flatMap poolBGPContribution
    ∧ (∀ ap : addressPool, ap.BGPAdvertisements = [] ∧ ap.Protocol = BGP →
        poolBGPContribution ap = [eraseName (emptyBGPAdv ap.Name 0)])
    ∧ (∀ ap : addressPool, ap.Protocol = Layer2 →
        poolBGPContribution ap
          = ap.BGPAdvertisements.map fun sp => eraseName (advFor ap.Name 0 sp)) := by
  refine ⟨?_, bgpAdvsOfPools_eraseName c.Pools 1, ?_, ?_⟩
  · rw [bgpAdvertisementsFor, bgpAdvsOfPools_names c.Pools 1]
    apply List.map_congr_left
    intro j _
    have : 1 + j = j + 1 := by omega
    rw [this]
  · intro ap h
    rw [poolBGPContribution, if_pos ⟨by simp [h.1], h.2⟩]
  · intro ap h
    have : ¬ (ap.BGPAdvertisements.length = 0 ∧ ap.Protocol = BGP) := by
      rintro ⟨-, hbgp⟩
      rw [h] at hbgp
      exact absurd hbgp (by decide)
    rw [poolBGPContribution, if_neg this]

/-- C4 witness: a `bgp` pool with no specs contributes exactly the
synthesized zero advertisement; a `layer2` pool with no specs
contributes nothing. -/
theorem bgpAdvertisementsFor_spec_witness :
    poolBGPContribution ⟨"pb", "bgp", [], none, none, []⟩
        = [eraseName (emptyBGPAdv "pb" 0)]
      ∧ poolBGPContribution ⟨"pl", "layer2", [], none, none, []⟩ = [] :=
  ⟨(bgpAdvertisementsFor_spec {}).2.2.1 _ ⟨rfl, rfl⟩,
   (bgpAdvertisementsFor_spec {}).2.2.2 _ rfl⟩

/-! ## Claim C8 -/

theorem l2AdvsOfPools_spec : ∀ (pools : List addressPool) (i : Nat),
    l2AdvsOfPools pools i
      = (List.enumFrom i (pools.filter fun ap => ap.Protocol == Layer2)).map
          fun p => { Name := "l2advertisement" ++ toString p.1
                     Namespace := resourcesNameSpace
                     IPAddressPools := [p.2.Name] : L2Advertisement }
  | [], _ => rfl
  | ap :: rest, i => by
      by_cases h : ap.Protocol = Layer2
      · simp only [l2AdvsOfPools, if_pos h, List.filter_cons,
          show (ap.Protocol == Layer2) = true by simp [h], if_true,
          List.enumFrom, List.map_cons, l2AdvsOfPools_spec rest (i + 1)]
      · simp only [l2AdvsOfPools, if_neg h, List.filter_cons,
          show (ap.Protocol == Layer2) = false by simp [h],
          l2AdvsOfPools_spec rest i]
        rfl

/-- The spec's two-pool example: first pool `layer2`, second pool `bgp`
with one explicit advertisement spec. -/
def twoPoolCfg : configFile :=
  { Pools := [⟨"pool1", "layer2", ["192.168.10.0/24"], none, none, []⟩,
              ⟨"pool2", "bgp", ["10.20.0.0/16"], none, none,
                [⟨32, 128, 100, ["1234:5678"]⟩]⟩] }

/-- C8: the L2-advertisement translation emits one `l2advertisement<N>`
per `layer2` pool in pool order, `N` counting qualifying pools from 1 on
a counter of its own; on the two-pool example (layer2 then bgp+one spec)
the names are `l2advertisement1` and `bgpadvertisement1` — the layer2
pool consumes no BGP counter value. -/
theorem l2AdvertisementsFor_spec :
    (∀ c : configFile,
      l2AdvertisementsFor c
        = (List.enumFrom 1 (c.Pools.filter fun ap => ap.Protocol == Layer2)).map
            fun p => { Name := "l2advertisement" ++ toString p.1
                       Namespace := resourcesNameSpace
                       IPAddressPools := [p.2.Name] : L2Advertisement })
    ∧ (l2AdvertisementsFor twoPoolCfg).map L2Advertisement.Name = ["l2advertisement1"]
    ∧ (bgpAdvertisementsFor twoPoolCfg).map BGPAdvertisement.Name
        = ["bgpadvertisement1"] :=
  ⟨fun c => l2AdvsOfPools_spec c.Pools 1, by decide, by decide⟩

/-! ## Claim C5 -/

/-- Whether a fallible hold-time parse succeeded. -/
def isOkE (e : Except String Int) : Bool :=
  match e with
  | .ok _ => true
  | .error _ => false

/-- C5 counterexample: the program does not truncate to whole seconds.
`"4661h0.999999999s"` parses to 16779600999999999 ns, whose whole-second
truncation is 16779600 s, yet `int(d.Seconds())` rounds the `float64`
sum up (the seconds part is ≥ `2^24`) and `parseHoldTime` returns
16779601 s. The `float64` fraction arithmetic inside parsing also
rounds: `"2.999999999999999999s"` parses to exactly 3000000000 ns and is
accepted as 3 s, although its decimal value truncates to 2 s. -/
theorem parseHoldTime_rounds_up_counterexample :
    parseDuration "4661h0.999999999s" = some 16779600999999999
    ∧ (16779600999999999 : Int) / 1000000000 = 16779600
    ∧ parseHoldTime "4661h0.999999999s" = .ok 16779601000000000
    ∧ (16779601000000000 : Int) ≠ 16779600 * 1000000000
    ∧ parseDuration "2.999999999999999999s" = some 3000000000
    ∧ parseHoldTime "2.999999999999999999s" = .ok 3000000000 := by
  decide

/-- C5 (amended): the empty hold time defaults to 90s; a non-empty text
the duration parser rejects fails; a parsed duration is converted to
whole seconds by `int(d.Seconds())` — truncation of the `float64` second
count, which coincides with truncation to whole seconds below `2^24`
seconds but can round up by one second beyond that — and the resulting
value is returned when it is exactly 0 or at least 3s and rejected when
it lies strictly between 0 and 3s; `"5s"` parses to 5s and `"2s"` is
rejected. -/
theorem parseHoldTime_spec :
    parseHoldTime "" = .ok (90 * nsPerSecond)
    ∧ (∀ t : String, t ≠ "" → parseDuration t = none → isOkE (parseHoldTime t) = false)
    ∧ (∀ t : String, ∀ d : Int, parseDuration t = some d →
        ((goSecondsInt d * nsPerSecond = 0
            ∨ 3 * nsPerSecond ≤ goSecondsInt d * nsPerSecond) →
          parseHoldTime t = .ok (goSecondsInt d * nsPerSecond))
        ∧ ((0 < goSecondsInt d * nsPerSecond
            ∧ goSecondsInt d * nsPerSecond < 3 * nsPerSecond) →
          isOkE (parseHoldTime t) = false))
    ∧ parseHoldTime "5s" = .ok (5 * nsPerSecond)
    ∧ isOkE (parseHoldTime "2s") = false := by
  refine ⟨by decide, ?_, ?_, by decide, by decide⟩
  · intro t ht hd
    simp [parseHoldTime, if_neg ht, hd, isOkE]
  · intro t d hd
    have ht : t ≠ "" := by
      intro h
      rw [h] at hd
      exact Option.noConfusion ((show parseDuration "" = none from rfl).symm.trans hd)
    simp only [parseHoldTime, if_neg ht, hd]
    constructor
    · intro hok
      have hc : ¬(goSecondsInt d * nsPerSecond ≠ 0
          ∧ goSecondsInt d * nsPerSecond < 3 * nsPerSecond) := by
        rcases hok with h | h
        · exact fun hcond => hcond.1 h
        · exact fun hcond => absurd hcond.2 (not_lt.mpr h)
      rw [if_neg hc]
    · intro hbad
      rw [if_pos ⟨(ne_of_gt hbad.1), hbad.2⟩]
      rfl

/-- C5 witness: a malformed text fails, `"10s"` truncates to 10s and
succeeds, `"2500ms"` truncates to 2s and is rejected. -/
theorem parseHoldTime_spec_witness :
    isOkE (parseHoldTime "bogus") = false
    ∧ parseHoldTime "10s" = .ok (goSecondsInt 10000000000 * nsPerSecond)
    ∧ isOkE (parseHoldTime "2500ms") = false :=
  ⟨parseHoldTime_spec.2.1 "bogus" (by decide) (by decide),
   (parseHoldTime_spec.2.2.1 "10s" 10000000000 (by decide)).1 (Or.inr (by decide)),
   (parseHoldTime_spec.2.2.1 "2500ms" 2500000000 (by decide)).2 (by decide)⟩

/-! ## Controller claims (C2, C3, C6, C9) -/

theorem Reconcile_eq_body {Cfg Pools : Type} [DecidableEq Cfg]
    (env : ReconcileEnv Cfg Pools) (s : ReconcileState Cfg)
    (aps : List LegacyAddressPool) (ipools : List IPAddressPool)
    (comms : List Community) (nss : List NamespaceV) (cm : ConfigMapV)
    (h1 : env.addressPools = .ok aps) (h2 : env.ipAddressPools = .ok ipools)
    (h3 : env.communities = .ok comms) (h4 : env.namespaces = .ok nss)
    (h5 : env.legacyCM = .ok cm) :
    Reconcile env s
      = reconcileBody env { s with updates := s.updates + 1 } aps ipools comms nss cm := by
  unfold Reconcile
  rw [h1, h2, h3, h4, h5]

/-- C6: when every fetch succeeds but the config builder/validator
fails, the cycle sets the stale gauge to 1 and nothing else: the loaded
gauge, `lastApplied` and the Handler-invocation count are unchanged and
no error is returned. -/
theorem reconcile_build_failure {Cfg Pools : Type} [DecidableEq Cfg]
    (env : ReconcileEnv Cfg Pools) (s : ReconcileState Cfg)
    (aps : List LegacyAddressPool) (ipools : List IPAddressPool)
    (comms : List Community) (nss : List NamespaceV) (cm : ConfigMapV)
    (lcf : configFile) (lres : ClusterResources) (e : GoErr)
    (h1 : env.addressPools = .ok aps) (h2 : env.ipAddressPools = .ok ipools)
    (h3 : env.communities = .ok comms) (h4 : env.namespaces = .ok nss)
    (h5 : env.legacyCM = .ok cm)
    (h6 : env.decodeLegacyCM cm = .ok lcf)
    (h7 : env.resourcesFor lcf = .ok lres)
    (h8 : env.toConfig
        (AddLegacyResources (some (fetchedResources aps ipools comms nss)) lres)
      = .error e) :
    Reconcile env s = (none, { s with updates := s.updates + 1, configStale := 1 }) := by
  rw [Reconcile_eq_body env s aps ipools comms nss cm h1 h2 h3 h4 h5]
  simp only [reconcileBody, h6, h7, h8]

/-- C2 (amended): when every fetch succeeds, the build succeeds and the
new effective config is equal to `lastApplied`, the Handler is never
invoked, the error counter and both gauges are unchanged and no error is
returned — but the reconcile-attempt counter, bumped unconditionally at
the top of every cycle, does change. -/
theorem reconcile_unchanged_config {Cfg Pools : Type} [DecidableEq Cfg]
    (env : ReconcileEnv Cfg Pools) (s : ReconcileState Cfg)
    (aps : List LegacyAddressPool) (ipools : List IPAddressPool)
    (comms : List Community) (nss : List NamespaceV) (cm : ConfigMapV)
    (lcf : configFile) (lres : ClusterResources) (cfg : Cfg)
    (h1 : env.addressPools = .ok aps) (h2 : env.ipAddressPools = .ok ipools)
    (h3 : env.communities = .ok comms) (h4 : env.namespaces = .ok nss)
    (h5 : env.legacyCM = .ok cm)
    (h6 : env.decodeLegacyCM cm = .ok lcf)
    (h7 : env.resourcesFor lcf = .ok lres)
    (h8 : env.toConfig
        (AddLegacyResources (some (fetchedResources aps ipools comms nss)) lres)
      = .ok cfg)
    (h9 : s.currentConfig = some cfg) :
    Reconcile env s = (none, { s with updates := s.updates + 1 }) := by
  rw [Reconcile_eq_body env s aps ipools comms nss cm h1 h2 h3 h4 h5]
  simp only [reconcileBody, h6, h7, h8, h9, if_pos]

/-- Concrete environment for the controller scenarios: every fetch
succeeds with empty data, decode/translate/build succeed, the built
config is `0`, the Handler reports success. -/
def baseEnv : ReconcileEnv Nat Nat :=
  { addressPools := .ok []
    ipAddressPools := .ok []
    communities := .ok []
    namespaces := .ok []
    legacyCM := .ok {}
    decodeLegacyCM := fun _ => .ok {}
    resourcesFor := fun _ => .ok {}
    toConfig := fun _ => .ok 0
    poolsOf := fun c => c
    handler := fun _ => SyncStateSuccess }

/-- Controller state whose `lastApplied` already equals the config
`baseEnv` builds. -/
def sEq : ReconcileState Nat := { currentConfig := some 0 }

/-- C2 counterexample: in the exact claimed scenario (fetch and build
succeed, new config equals `lastApplied`, Handler not invoked, no error)
a metric does change: the reconcile-attempt counter is incremented. -/
theorem reconcile_equal_config_counterexample :
    baseEnv.toConfig (AddLegacyResources (some (fetchedResources [] [] [] [])) {}) = .ok 0
    ∧ sEq.currentConfig = some 0
    ∧ (Reconcile baseEnv sEq).1 = none
    ∧ (Reconcile baseEnv sEq).2.handlerCalls = sEq.handlerCalls
    ∧ ¬((Reconcile baseEnv sEq).2.updates = sEq.updates) := by
  decide

/-- C2 witness: the concrete equal-config cycle is a no-op but for the
attempt counter. -/
theorem reconcile_unchanged_config_witness :
    Reconcile baseEnv sEq = (none, { sEq with updates := sEq.updates + 1 }) :=
  reconcile_unchanged_config baseEnv sEq [] [] [] [] {} {} {} 0
    rfl rfl rfl rfl rfl rfl rfl rfl rfl

/-- C3: when the Handler reports the no-retry error outcome, the error
counter is incremented, the stale gauge set to 1, `lastApplied` left
unchanged and no error returned; and because `lastApplied` was never
adopted, an identical follow-up cycle still sees a difference and
invokes the Handler again. -/
theorem reconcile_error_no_retry {Cfg Pools : Type} [DecidableEq Cfg]
    (env : ReconcileEnv Cfg Pools) (s : ReconcileState Cfg)
    (aps : List LegacyAddressPool) (ipools : List IPAddressPool)
    (comms : List Community) (nss : List NamespaceV) (cm : ConfigMapV)
    (lcf : configFile) (lres : ClusterResources) (cfg : Cfg)
    (h1 : env.addressPools = .ok aps) (h2 : env.ipAddressPools = .ok ipools)
    (h3 : env.communities = .ok comms) (h4 : env.namespaces = .ok nss)
    (h5 : env.legacyCM = .ok cm)
    (h6 : env.decodeLegacyCM cm = .ok lcf)
    (h7 : env.resourcesFor lcf = .ok lres)
    (h8 : env.toConfig
        (AddLegacyResources (some (fetchedResources aps ipools comms nss)) lres)
      = .ok cfg)
    (h9 : s.currentConfig ≠ some cfg)
    (h10 : env.handler (env.poolsOf cfg) = SyncStateErrorNoRetry) :
    Reconcile env s
      = (none, { s with
          updates := s.updates + 1
          updateErrors := s.updateErrors + 1
          configStale := 1
          handlerCalls := s.handlerCalls + 1 })
    ∧ (Reconcile env { s with
          updates := s.updates + 1
          updateErrors := s.updateErrors + 1
          configStale := 1
          handlerCalls := s.handlerCalls + 1 }).2.handlerCalls
        = s.handlerCalls + 2 := by
  have main : ∀ s' : ReconcileState Cfg, s'.currentConfig ≠ some cfg →
      Reconcile env s'
        = (none, { s' with
            updates := s'.updates + 1
            updateErrors := s'.updateErrors + 1
            configStale := 1
            handlerCalls := s'.handlerCalls + 1 }) := by
    intro s' h9'
    rw [Reconcile_eq_body env s' aps ipools comms nss cm h1 h2 h3 h4 h5]
    simp only [reconcileBody, h6, h7, h8, if_neg h9', h10]
    simp [SyncStateError, SyncStateErrorNoRetry]
  refine ⟨main s h9, ?_⟩
  rw [main { s with
      updates := s.updates + 1
      updateErrors := s.updateErrors + 1
      configStale := 1
      handlerCalls := s.handlerCalls + 1 } h9]

/-- Environment whose Handler reports the no-retry error outcome. -/
def envNoRetry : ReconcileEnv Nat Nat :=
  { baseEnv with handler := fun _ => SyncStateErrorNoRetry }

/-- C3 witness: concrete no-retry cycle from the empty state, and the
identical follow-up cycle calls the Handler a second time. -/
theorem reconcile_error_no_retry_witness :
    Reconcile envNoRetry {}
      = (none, { ({} : ReconcileState Nat) with
          updates := 1
          updateErrors := 1
          configStale := 1
          handlerCalls := 1 })
    ∧ (Reconcile envNoRetry { ({} : ReconcileState Nat) with
          updates := 1
          updateErrors := 1
          configStale := 1
          handlerCalls := 1 }).2.handlerCalls = 2 :=
  reconcile_error_no_retry envNoRetry {} [] [] [] [] {} {} {} 0
    rfl rfl rfl rfl rfl rfl rfl rfl (by decide) rfl

/-- C6 witness: concrete build-failure cycle. -/
theorem reconcile_build_failure_witness :
    Reconcile { baseEnv with toConfig := fun _ => .error .generic } sEq
      = (none, { sEq with updates := sEq.updates + 1, configStale := 1 }) :=
  reconcile_build_failure { baseEnv with toConfig := fun _ => .error .generic }
    sEq [] [] [] [] {} {} {} .generic rfl rfl rfl rfl rfl rfl rfl rfl

/-- C9: when the Handler returns any value other than the three
explicitly handled outcomes (retryable error, no-retry error,
reprocess-all) — the success value or any newly added one — the switch
falls through to the success path: the new config is adopted as
`lastApplied`, the loaded gauge is set to 1, the stale gauge to 0, the
force-reload callback is not invoked and no error is returned. -/
theorem reconcile_unhandled_outcome {Cfg Pools : Type} [DecidableEq Cfg]
    (env : ReconcileEnv Cfg Pools) (s : ReconcileState Cfg)
    (aps : List LegacyAddressPool) (ipools : List IPAddressPool)
    (comms : List Community) (nss : List NamespaceV) (cm : ConfigMapV)
    (lcf : configFile) (lres : ClusterResources) (cfg : Cfg) (res : SyncState)
    (h1 : env.addressPools = .ok aps) (h2 : env.ipAddressPools = .ok ipools)
    (h3 : env.communities = .ok comms) (h4 : env.namespaces = .ok nss)
    (h5 : env.legacyCM = .ok cm)
    (h6 : env.decodeLegacyCM cm = .ok lcf)
    (h7 : env.resourcesFor lcf = .ok lres)
    (h8 : env.toConfig
        (AddLegacyResources (some (fetchedResources aps ipools comms nss)) lres)
      = .ok cfg)
    (h9 : s.currentConfig ≠ some cfg)
    (h10 : env.handler (env.poolsOf cfg) = res)
    (hr1 : res ≠ SyncStateError) (hr2 : res ≠ SyncStateErrorNoRetry)
    (hr3 : res ≠ SyncStateReprocessAll) :
    Reconcile env s
      = (none, { s with
          updates := s.updates + 1
          handlerCalls := s.handlerCalls + 1
          currentConfig := some cfg
          configLoaded := 1
          configStale := 0 }) := by
  rw [Reconcile_eq_body env s aps ipools comms nss cm h1 h2 h3 h4 h5]
  simp only [reconcileBody, h6, h7, h8, if_neg h9, h10, if_neg hr1, if_neg hr2,
    if_neg hr3]

/-- Environment whose Handler reports an outcome value beyond every
declared constant. -/
def envNovelOutcome : ReconcileEnv Nat Nat :=
  { baseEnv with handler := fun _ => 7 }

/-- C9 witness: a Handler outcome of `7` (no such declared constant)
takes the success path. -/
theorem reconcile_unhandled_outcome_witness :
    Reconcile envNovelOutcome {}
      = (none, { ({} : ReconcileState Nat) with
          updates := 1
          handlerCalls := 1
          currentConfig := some 0
          configLoaded := 1
          configStale := 0 }) :=
  reconcile_unhandled_outcome envNovelOutcome {} [] [] [] [] {} {} {} 0 7
    rfl rfl rfl rfl rfl rfl rfl rfl (by decide) rfl
    (by decide) (by decide) (by decide)

end Metallb
